import Mathlib

/-!
Verification development for the Thai-ID image-classification pipeline
(`Tensorflow/` sources: `data_loader.py`, `preprocessor.py`, `inference.py`,
`tflite_converter.py`, `trainer.py`).

The Python code is shallowly embedded: pure data transformations become Lean
functions over lists; Python floats become `ℚ` (all arithmetic the claims touch
is exact division and comparison); numpy RNG draws (`np.random.choice`,
`np.random.permutation`) are modelled by an explicit integer stream
`pick : ℕ → ℕ` reduced modulo the live index range, so every seed realisation
is an instance; the wall clock (`time.time()`) is a stream `clock : ℕ → ℚ`
indexed by call order; the filesystem is an explicit association list; raised
Python exceptions become `Except.error`.
-/

namespace ThaiID

/-- Decidable equality for modelled exception results, so that concrete runs
of the embedded functions can be checked by evaluation. -/
instance {ε α : Type*} [DecidableEq ε] [DecidableEq α] : DecidableEq (Except ε α) :=
  fun x y =>
    match x, y with
    | .ok a, .ok b =>
      if h : a = b then .isTrue (congrArg Except.ok h)
      else .isFalse (fun hh => h (Except.ok.inj hh))
    | .error e, .error f =>
      if h : e = f then .isTrue (congrArg Except.error h)
      else .isFalse (fun hh => h (Except.error.inj hh))
    | .ok _, .error _ => .isFalse (fun hh => Except.noConfusion hh)
    | .error _, .ok _ => .isFalse (fun hh => Except.noConfusion hh)

/-! ## numpy primitives used by the sources -/

/-- Model of `np.unique`: the distinct values of a list, sorted ascending
(realised as an insertion sort of the deduplicated list, so that concrete
runs reduce inside the kernel). -/
def npUnique (l : List ℤ) : List ℤ := List.insertionSort (· ≤ ·) l.dedup

/-- Model of `np.argmax` on a vector of natural numbers: the index of the
first occurrence of the maximum value. -/
def npArgmax (l : List ℕ) : ℕ := l.findIdx (fun x => decide (x = l.foldr max 0))

/-- Model of `np.argmax` on a vector of rationals (used on the probability
tensor in `predict`): index of the first occurrence of the maximum. -/
def npArgmaxQ : List ℚ → ℕ
  | [] => 0
  | a :: t => (a :: t).findIdx (fun x => decide (x = t.foldl max a))

/-- Model of `np.min` on a nonempty vector of naturals (numpy raises on an
empty input; the `0` default is never reached by the claims). -/
def npMinNat : List ℕ → ℕ
  | [] => 0
  | a :: t => t.foldl min a

/-- Model of `np.max` on a nonempty vector of naturals. -/
def npMaxNat : List ℕ → ℕ
  | [] => 0
  | a :: t => t.foldl max a

/-- Model of `np.max` on a rational array (numpy raises on an empty input;
the `0` default is never reached by the claims). -/
def npMaxQ : List ℚ → ℚ
  | [] => 0
  | a :: t => t.foldl max a

/-- Model of `np.min` on a rational array. -/
def npMinQ : List ℚ → ℚ
  | [] => 0
  | a :: t => t.foldl min a

/-- Model of `np.mean`: sum divided by length (`0` on the empty list, where
numpy would produce `nan`; the claims never use that case). -/
def npMeanQ (l : List ℚ) : ℚ := l.sum / l.length

/-- Squared `np.std` (the variance): `np.std` itself is an irrational square
root, so the model stores its square, which determines it. -/
def npVarQ (l : List ℚ) : ℚ := (l.map (fun x => (x - npMeanQ l) ^ 2)).sum / l.length

/-! ## `data_loader.py`: `ThaiIDDataLoader` -/

/-- One line of a YOLO annotation file, as the list of its numeric tokens
after whitespace split.  Coordinate tokens are modelled as integers as well;
`load_data_for_classification` never reads their values, only the token
count and the class id (token 0). -/
abbrev Line := List ℤ

/-- One image of the dataset directory as the loader sees it:
`readable` is whether `cv2.imread` succeeds, `data` stands for the decoded
(resized, RGB, scaled) pixel tensor, `hasLabelFile` is
`os.path.exists(label_path)` for the same-stem `.txt`, and `labelLines` its
parsed lines. -/
structure ImageFile where
  data : ℕ
  readable : Bool
  hasLabelFile : Bool
  labelLines : List Line
deriving DecidableEq

/-- Translation of `ThaiIDDataLoader._parse_yolo_label`: keep the lines with
at least 5 tokens; the class id is token 0 and the box is tokens 1-4.  A
missing label file yields no boxes. -/
def parse_yolo_label (img : ImageFile) : List (ℤ × ℤ × ℤ × ℤ) × List ℤ :=
  if img.hasLabelFile then
    let kept := img.labelLines.filter (fun parts => decide (5 ≤ parts.length))
    (kept.map (fun parts => (parts.getD 1 0, parts.getD 2 0, parts.getD 3 0, parts.getD 4 0)),
     kept.map (fun parts => parts.getD 0 0))
  else ([], [])

/-- The label `load_data_for_classification` assigns to an image:
`unique, counts = np.unique(box_classes, return_counts=True);
unique[np.argmax(counts)]`.  `none` only on an empty class list. -/
def mostFrequentClass (cls : List ℤ) : Option ℤ :=
  let u := npUnique cls
  let counts := u.map (fun c => cls.count c)
  u.get? (npArgmax counts)

/-- Accumulator of the image loop in `load_data_for_classification`: the
collected images and labels, and the values of the `class_counts` dict.
The dict `class_counts = {i: 0 for i in range(self.num_classes)}` has
exactly the keys `0 .. num_classes - 1`; `classCounts` stores its values,
and every access in `loadStep` is guarded by key membership — a missing key
raises `KeyError`. -/
structure LoadAcc where
  images : List ℕ
  labels : List ℤ
  classCounts : ℤ → ℕ

/-- One iteration of the image loop of `load_data_for_classification`:
skip unreadable images; parse the label file; skip images with no boxes;
otherwise label with the most frequent box class, subject to the optional
`max_samples_per_class` cap.  Both the cap check
`class_counts[most_frequent_class] < max_samples_per_class` (evaluated when
the cap is not `None`) and the increment
`class_counts[most_frequent_class] += 1` (evaluated whenever the sample is
appended) read the dict and raise `KeyError` exactly when the plurality
class is not a key, i.e. not in `range(num_classes)`; every such run aborts
the call, which the single guard below models. -/
def loadStep (numClasses : ℕ) (maxSamples : Option ℕ) (acc : LoadAcc)
    (img : ImageFile) : Except String LoadAcc :=
  if img.readable then
    let cls := (parse_yolo_label img).2
    if 0 < cls.length then
      match mostFrequentClass cls with
      | some c =>
        if 0 ≤ c ∧ c < (numClasses : ℤ) then
          if maxSamples = none ∨ acc.classCounts c < maxSamples.getD 0 then
            Except.ok
              { images := acc.images ++ [img.data]
                labels := acc.labels ++ [c]
                classCounts := fun d =>
                  if d = c then acc.classCounts d + 1 else acc.classCounts d }
          else Except.ok acc
        else Except.error ("KeyError: " ++ toString c)
      | none => Except.ok acc
    else Except.ok acc
  else Except.ok acc

/-- The image loop of `load_data_for_classification`; a raised `KeyError`
aborts the whole call. -/
def loadLoop (numClasses : ℕ) (maxSamples : Option ℕ) :
    LoadAcc → List ImageFile → Except String LoadAcc
  | acc, [] => Except.ok acc
  | acc, img :: rest =>
    match loadStep numClasses maxSamples acc img with
    | Except.ok acc2 => loadLoop numClasses maxSamples acc2 rest
    | Except.error e => Except.error e

/-- Translation of `ThaiIDDataLoader.load_data_for_classification`:
`numClasses` is `self.num_classes`, the length of the loaded class registry;
the per-image step runs over the directory listing and the image and label
sequences are returned — unless some image's plurality class id lies outside
`range(num_classes)`, in which case the call raises `KeyError`. -/
def load_data_for_classification (numClasses : ℕ) (maxSamples : Option ℕ)
    (imgs : List ImageFile) : Except String (List ℕ × List ℤ) :=
  match loadLoop numClasses maxSamples ⟨[], [], fun _ => 0⟩ imgs with
  | Except.ok final => Except.ok (final.images, final.labels)
  | Except.error e => Except.error e

/-- The contribution of a single image when no per-class cap is set: the
(pixel data, label) pair it adds to the output, or `none` when it is
skipped. -/
def classifyOne (img : ImageFile) : Option (ℕ × ℤ) :=
  if img.readable then
    let cls := (parse_yolo_label img).2
    if 0 < cls.length then (mostFrequentClass cls).map (fun c => (img.data, c))
    else none
  else none

/-- Translation of `ThaiIDDataLoader._load_classes`: the stripped nonempty
lines of `classes.txt`; a missing file (`content = none`) raises
`FileNotFoundError`. -/
def dataLoaderLoadClasses (content : Option (List String)) : Except String (List String) :=
  match content with
  | some lines => Except.ok ((lines.map String.trim).filter (fun s => !(s == "")))
  | none => Except.error ("Arquivo classes.txt nao encontrado")

/-! ## `preprocessor.py`: `DataPreprocessor` -/

/-- Fuel-indexed kernel of the seeded shuffle: at each step draw the element
at position `pick s % length` and remove it.  The fuel equals the initial
length, so the fuel never runs out. -/
def drawShuffleAux (pick : ℕ → ℕ) : ℕ → ℕ → List α → List α
  | 0, _, _ => []
  | _ + 1, _, [] => []
  | fuel + 1, s, a :: t =>
    let l := a :: t
    let i := pick s % l.length
    l.getD i a :: drawShuffleAux pick fuel (s + 1) (l.eraseIdx i)

/-- Model of a seeded numpy permutation (`np.random.permutation` /
the shuffle inside `train_test_split`): a Fisher-Yates draw directed by the
integer stream `pick`.  Every permutation the library could produce is
`drawShuffle pick s` for a suitable stream. -/
def drawShuffle (pick : ℕ → ℕ) (s : ℕ) (l : List α) : List α :=
  drawShuffleAux pick l.length s l

/-- Modelled from sklearn `train_test_split` (third-party; called by
`create_data_splits`): shuffle with the seeded stream, give the test side
`ceil(n * test_size)` samples and the rest to the train side.  Which samples
land where (including the stratified arrangement) is absorbed into the
stream; the returned pair is `(train, test)`. -/
def trainTestSplit (pick : ℕ → ℕ) (s : ℕ) (samples : List α) (testSize : ℚ) :
    List α × List α :=
  let shuffled := drawShuffle pick s samples
  let nTest := (⌈(samples.length : ℚ) * testSize⌉).toNat
  (shuffled.drop nTest, shuffled.take nTest)

/-- Translation of `DataPreprocessor.create_data_splits`: first split off the
test set, then, when `val_size > 0`, split the remainder with the adjusted
fraction `val_size / (1 - test_size)`; otherwise the validation set is
`None`.  Returns `(train, val?, test)`. -/
def create_data_splits (pick : ℕ → ℕ) (samples : List α) (testSize valSize : ℚ) :
    List α × Option (List α) × List α :=
  let fs := trainTestSplit pick 0 samples testSize
  if 0 < valSize then
    let adjusted := valSize / (1 - testSize)
    let ss := trainTestSplit pick samples.length fs.1 adjusted
    (ss.1, some ss.2, fs.2)
  else (fs.1, none, fs.2)

/-- The label sequence of a list of (sample, label) pairs. -/
def labels (samples : List (α × ℤ)) : List ℤ := samples.map Prod.snd

/-- The samples of class `c`, in order: `X[np.where(y == c)[0]]` paired with
its labels. -/
def classSamples (samples : List (α × ℤ)) (c : ℤ) : List (α × ℤ) :=
  samples.filter (fun p => p.2 == c)

/-- Model of `np.random.choice(l, k, replace=False)`: draw `k` elements
directed by the stream, removing each drawn element.  Runs dry only if
`k > length l` (where numpy raises). -/
def chooseNoRep (pick : ℕ → ℕ) : ℕ → ℕ → List α → List α
  | _, 0, _ => []
  | _, _ + 1, [] => []
  | s, k + 1, a :: t =>
    let l := a :: t
    let i := pick s % l.length
    l.getD i a :: chooseNoRep pick (s + 1) k (l.eraseIdx i)

/-- Model of `np.random.choice(l, k, replace=True)`: `k` independent draws
directed by the stream, repetition allowed. -/
def chooseRep (pick : ℕ → ℕ) (s k : ℕ) : List α → List α
  | [] => []
  | a :: t => (List.range k).map (fun j => (a :: t).getD (pick (s + j) % (a :: t).length) a)

/-- The per-class loop of the `undersample` branch of `balance_dataset`:
for each class in order, draw `k` of its samples without replacement,
consuming `k` stream positions per class. -/
def undersamplePart (pick : ℕ → ℕ) (samples : List (α × ℤ)) (k : ℕ) :
    ℕ → List ℤ → List (α × ℤ)
  | _, [] => []
  | s, c :: rest =>
    chooseNoRep pick s k (classSamples samples c) ++ undersamplePart pick samples k (s + k) rest

/-- The per-class loop of the `oversample` branch of `balance_dataset`:
for each class in order, draw `k` of its samples with replacement. -/
def oversamplePart (pick : ℕ → ℕ) (samples : List (α × ℤ)) (k : ℕ) :
    ℕ → List ℤ → List (α × ℤ)
  | _, [] => []
  | s, c :: rest =>
    chooseRep pick s k (classSamples samples c) ++ oversamplePart pick samples k (s + k) rest

/-- Translation of `DataPreprocessor.balance_dataset`: `undersample` draws
`min(counts)` samples per class without replacement, `oversample` draws
`max(counts)` per class with replacement, any other strategy keeps the data;
every strategy except the literal string `none` then shuffles.  The two RNG
uses (selection, final permutation) get their own streams. -/
def balance_dataset (pick pickPerm : ℕ → ℕ) (strategy : String)
    (samples : List (α × ℤ)) : List (α × ℤ) :=
  let u := npUnique (labels samples)
  let counts := u.map (fun c => (labels samples).count c)
  let balanced :=
    if strategy = "undersample" then undersamplePart pick samples (npMinNat counts) 0 u
    else if strategy = "oversample" then oversamplePart pick samples (npMaxNat counts) 0 u
    else samples
  if strategy ≠ "none" then drawShuffle pickPerm 0 balanced else balanced

/-- Translation of `DataPreprocessor.normalize_images` on the flattened pixel
array: the `float32` cast is value-preserving in this exact-arithmetic model,
and the array is divided by 255 exactly when its maximum exceeds 1. -/
def normalize_images (X : List ℚ) : List ℚ :=
  if 1 < npMaxQ X then X.map (fun v => v / 255) else X

/-! ## `inference.py`: `ThaiIDInference`, and `tflite_converter.py` -/

/-- A TFLite artifact on disk, by its reported metadata. -/
structure TFLiteArtifact where
  inputShape : List ℕ
  inputDtype : String
  outputShape : List ℕ
  outputDtype : String
  numTensors : ℕ
  sizeBytes : ℕ
deriving DecidableEq

/-- The filesystem visible to the loaders: the valid TFLite files that exist,
keyed by path. -/
abbrev FileSystem := List (String × TFLiteArtifact)

/-- Path lookup on the modelled filesystem. -/
def fsLookup (fs : FileSystem) (p : String) : Option TFLiteArtifact := fs.lookup p

/-- Translation of `ThaiIDInference.load_classes`: stripped nonempty lines of
the classes file when it exists, otherwise the default registry
`classe_0 .. classe_2`; never raises. -/
def load_classes (content : Option (List String)) : List String :=
  match content with
  | some lines => (lines.map String.trim).filter (fun s => !(s == ""))
  | none => (List.range 3).map (fun i => "classe_" ++ toString i)

/-- The state `ThaiIDInference.__init__` builds: `interpreter` is `none`
whenever `load_tflite_model` failed (missing file or load error). -/
structure InferenceState where
  modelPath : String
  interpreter : Option TFLiteArtifact
  classes : List String
deriving DecidableEq

/-- Translation of `ThaiIDInference.__init__`: load the classes (with
fallback), then try to load the TFLite model; a missing model file leaves
`interpreter = none` and does not raise. -/
def mkInference (fs : FileSystem) (modelPath : String)
    (classesContent : Option (List String)) : InferenceState :=
  { modelPath := modelPath
    interpreter := fsLookup fs modelPath
    classes := load_classes classesContent }

/-- The record `ThaiIDInference.get_model_info` returns on success. -/
structure ModelInfo where
  modelPath : String
  inputShape : List ℕ
  inputDtype : String
  outputShape : List ℕ
  outputDtype : String
  numClasses : ℕ
  classes : List String
deriving DecidableEq

/-- Translation of `ThaiIDInference.get_model_info`: `None` when no
interpreter is loaded, otherwise the populated info record. -/
def get_model_info (st : InferenceState) : Option ModelInfo :=
  match st.interpreter with
  | none => none
  | some it =>
    some { modelPath := st.modelPath
           inputShape := it.inputShape
           inputDtype := it.inputDtype
           outputShape := it.outputShape
           outputDtype := it.outputDtype
           numClasses := st.classes.length
           classes := st.classes }

/-- The record `TFLiteConverter.get_model_info` returns. -/
structure ConverterModelInfo where
  fileSizeMb : ℚ
  inputShape : List ℕ
  inputDtype : String
  outputShape : List ℕ
  outputDtype : String
  numTensors : ℕ
deriving DecidableEq

/-- Translation of `TFLiteConverter.get_model_info`: only `ImportError` is
handled; constructing `tf.lite.Interpreter` on a path that names no file
raises, modelled as `Except.error`. -/
def converter_get_model_info (fs : FileSystem) (path : String) :
    Except String ConverterModelInfo :=
  match fsLookup fs path with
  | none => Except.error ("model file not found: " ++ path)
  | some it =>
    Except.ok { fileSizeMb := (it.sizeBytes : ℚ) / (1024 * 1024)
                inputShape := it.inputShape
                inputDtype := it.inputDtype
                outputShape := it.outputShape
                outputDtype := it.outputDtype
                numTensors := it.numTensors }

/-- An argument to `predict`: a path (whose decode may fail) or an in-memory
array; `pixels` stands for the decoded content fed to the interpreter. -/
structure PredImage where
  isPath : Bool
  readable : Bool
  pixels : ℕ
deriving DecidableEq

/-- The result record of a successful `predict`. -/
structure Prediction where
  classId : ℕ
  className : String
  confidence : ℚ
  probabilities : List ℚ
deriving DecidableEq

/-- Translation of `ThaiIDInference.predict`: raise when no interpreter is
loaded; raise when a path argument cannot be decoded; otherwise run the
interpreter (abstracted as `run`, the map from pixel content to the output
probability tensor) and take the argmax class.  Class ids beyond the
registry are named `unknown_<id>`. -/
def predict (st : InferenceState) (run : ℕ → List ℚ) (img : PredImage) :
    Except String Prediction :=
  match st.interpreter with
  | none => Except.error ("Modelo nao foi carregado")
  | some _ =>
    if img.isPath && !img.readable then
      Except.error ("Nao foi possivel carregar a imagem")
    else
      let probabilities := run img.pixels
      let predictedClassId := npArgmaxQ probabilities
      let className :=
        if predictedClassId < st.classes.length then st.classes.getD predictedClassId ""
        else "unknown_" ++ toString predictedClassId
      Except.ok { classId := predictedClassId
                  className := className
                  confidence := probabilities.getD predictedClassId 0
                  probabilities := probabilities }

/-- One entry of the `predict_batch` result list: either a prediction record
or an error record, both carrying `image_index`. -/
inductive BatchEntry where
  | ok : ℕ → Prediction → BatchEntry
  | err : ℕ → String → BatchEntry
deriving DecidableEq

/-- The `image_index` field of a batch entry. -/
def BatchEntry.imageIndex : BatchEntry → ℕ
  | .ok i _ => i
  | .err i _ => i

/-- Packaging of one per-image try/except outcome of `predict_batch`. -/
def mkEntry (i : ℕ) : Except String Prediction → BatchEntry
  | .ok r => .ok i r
  | .error e => .err i e

/-- The enumerated loop of `predict_batch`, carrying the running index. -/
def predictBatchLoop (st : InferenceState) (run : ℕ → List ℚ) :
    ℕ → List PredImage → List BatchEntry
  | _, [] => []
  | i, img :: rest => mkEntry i (predict st run img) :: predictBatchLoop st run (i + 1) rest

/-- Translation of `ThaiIDInference.predict_batch`: each image is predicted
inside its own try/except and contributes exactly one entry. -/
def predict_batch (st : InferenceState) (run : ℕ → List ℚ) (imgs : List PredImage) :
    List BatchEntry :=
  predictBatchLoop st run 0 imgs

/-- Extension filter of the benchmark image listing
(`f.lower().endswith(('.png', '.jpg', '.jpeg', '.webp'))`), expressed on the
character sequence of the filename. -/
def isImageFile (f : String) : Bool :=
  let lf := f.data.map Char.toLower
  (".png".data.isSuffixOf lf) || (".jpg".data.isSuffixOf lf) ||
    (".jpeg".data.isSuffixOf lf) || (".webp".data.isSuffixOf lf)

/-- The statistics record `benchmark_inference_speed` returns; `varTimeMs`
is the square of the reported `np.std` (see `npVarQ`). -/
structure BenchStats where
  avgTimeMs : ℚ
  minTimeMs : ℚ
  maxTimeMs : ℚ
  varTimeMs : ℚ
  fps : ℚ
  times : List ℚ
deriving DecidableEq

/-- Translation of `ThaiIDInference.benchmark_inference_speed`.
`dirListing` is the content of `dataset/images` (`none` when the directory is
missing); `clock` is the `time.time()` stream indexed by call order, read
twice per timed iteration and not at all during warm-up; `calls0` counts
interpreter invocations so far, each `predict` adding one.  Returns `none`
(the early exits) when no test image is available, otherwise the statistics
and the final invocation count: 10 warm-up predictions, then
`numIterations` timed ones. -/
def benchmark_inference_speed (clock : ℕ → ℚ) (dirListing : Option (List String))
    (numIterations calls0 : ℕ) : Option (BenchStats × ℕ) :=
  match dirListing with
  | none => none
  | some files =>
    match files.filter isImageFile with
    | [] => none
    | _ :: _ =>
      let afterWarmup := (List.range 10).foldl (fun c _ => c + 1) calls0
      let loop := (List.range numIterations).foldl
        (fun (acc : ℕ × List ℚ) i =>
          (acc.1 + 1, acc.2 ++ [(clock (2 * i + 1) - clock (2 * i)) * 1000]))
        (afterWarmup, [])
      let times := loop.2
      some ({ avgTimeMs := npMeanQ times
              minTimeMs := npMinQ times
              maxTimeMs := npMaxQ times
              varTimeMs := npVarQ times
              fps := 1000 / npMeanQ times
              times := times }, loop.1)

/-! ## `trainer.py`: `ModelTrainer` -/

/-- The mutable attributes of `ModelTrainer`; model objects are abstracted to
identifiers. -/
structure TrainerState where
  datasetPath : String
  modelBuilder : Option ℕ
  model : Option ℕ
  history : Option (List ℚ)
  classes : Option (List String)
deriving DecidableEq

/-- Stand-in for the framework fit loop: the history a successful training
run records (its values are irrelevant to the claims). -/
def fitHistory (m epochs : ℕ) : List ℚ := List.replicate (m * 0 + epochs) 0

/-- Translation of `ModelTrainer.train`: raises `ValueError` before touching
any state when no model has been created; otherwise delegates to the
framework fit loop and stores the history. -/
def train (st : TrainerState) (epochs : ℕ) : TrainerState × Except String (List ℚ) :=
  match st.model with
  | none => (st, Except.error ("Modelo nao foi criado. Chame create_model() primeiro."))
  | some m =>
    let h := fitHistory m epochs
    ({ st with history := some h }, Except.ok h)

/-- Translation of `ModelTrainer.train_extended`: same guard as `train`. -/
def train_extended (st : TrainerState) (epochs : ℕ) :
    TrainerState × Except String (List ℚ) :=
  match st.model with
  | none => (st, Except.error ("Modelo nao foi criado. Chame create_model() primeiro."))
  | some m =>
    let h := fitHistory m epochs
    ({ st with history := some h }, Except.ok h)

/-- Translation of `ModelTrainer.fine_tune`: raises `ValueError` before
touching any state when no model exists; a successful run returns the
fine-tune history without writing `self.history`. -/
def fine_tune (st : TrainerState) (epochs : ℕ) :
    TrainerState × Except String (List ℚ) :=
  match st.model with
  | none => (st, Except.error ("Modelo nao foi treinado ainda!"))
  | some m => (st, Except.ok (fitHistory m epochs))

/-- Translation of `ModelTrainer.fine_tune_extended`: same guard as
`fine_tune`. -/
def fine_tune_extended (st : TrainerState) (epochs : ℕ) :
    TrainerState × Except String (List ℚ) :=
  match st.model with
  | none => (st, Except.error ("Modelo nao foi treinado ainda!"))
  | some m => (st, Except.ok (fitHistory m epochs))

/-! ## Helper lemmas on folded maxima and minima -/

theorem foldl_max_eq_or_mem {α : Type*} [LinearOrder α] :
    ∀ (t : List α) (a : α), t.foldl max a = a ∨ t.foldl max a ∈ t
  | [], _ => Or.inl rfl
  | b :: t, a => by
    rw [List.foldl_cons]
    rcases foldl_max_eq_or_mem t (max a b) with h | h
    · rcases max_choice a b with h2 | h2
      · exact Or.inl (by rw [h, h2])
      · exact Or.inr (by rw [h, h2]; exact List.mem_cons_self b t)
    · exact Or.inr (List.mem_cons_of_mem _ h)

theorem le_foldl_max {α : Type*} [LinearOrder α] :
    ∀ (t : List α) (a : α), a ≤ t.foldl max a ∧ ∀ x ∈ t, x ≤ t.foldl max a
  | [], a => ⟨le_refl a, fun x hx => absurd hx (List.not_mem_nil x)⟩
  | b :: t, a => by
    obtain ⟨h1, h2⟩ := le_foldl_max t (max a b)
    rw [List.foldl_cons]
    refine ⟨le_trans (le_max_left a b) h1, fun x hx => ?_⟩
    rcases List.mem_cons.mp hx with rfl | hx
    · exact le_trans (le_max_right a x) h1
    · exact h2 x hx

theorem foldl_min_eq_or_mem {α : Type*} [LinearOrder α] :
    ∀ (t : List α) (a : α), t.foldl min a = a ∨ t.foldl min a ∈ t
  | [], _ => Or.inl rfl
  | b :: t, a => by
    rw [List.foldl_cons]
    rcases foldl_min_eq_or_mem t (min a b) with h | h
    · rcases min_choice a b with h2 | h2
      · exact Or.inl (by rw [h, h2])
      · exact Or.inr (by rw [h, h2]; exact List.mem_cons_self b t)
    · exact Or.inr (List.mem_cons_of_mem _ h)

theorem foldl_min_le {α : Type*} [LinearOrder α] :
    ∀ (t : List α) (a : α), t.foldl min a ≤ a ∧ ∀ x ∈ t, t.foldl min a ≤ x
  | [], a => ⟨le_refl a, fun x hx => absurd hx (List.not_mem_nil x)⟩
  | b :: t, a => by
    obtain ⟨h1, h2⟩ := foldl_min_le t (min a b)
    rw [List.foldl_cons]
    refine ⟨le_trans h1 (min_le_left a b), fun x hx => ?_⟩
    rcases List.mem_cons.mp hx with rfl | hx
    · exact le_trans h1 (min_le_right a x)
    · exact h2 x hx

theorem npMaxQ_mem {l : List ℚ} (h : l ≠ []) : npMaxQ l ∈ l := by
  cases l with
  | nil => exact absurd rfl h
  | cons a t =>
    rcases foldl_max_eq_or_mem t a with h1 | h1
    · simp only [npMaxQ, h1]; exact List.mem_cons_self a t
    · simp only [npMaxQ]; exact List.mem_cons_of_mem _ h1

theorem le_npMaxQ {l : List ℚ} {x : ℚ} (h : x ∈ l) : x ≤ npMaxQ l := by
  cases l with
  | nil => exact absurd h (List.not_mem_nil x)
  | cons a t =>
    simp only [npMaxQ]
    rcases List.mem_cons.mp h with rfl | hx
    · exact (le_foldl_max t x).1
    · exact (le_foldl_max t a).2 x hx

theorem foldl_max_map_div (t : List ℚ) (a : ℚ) :
    (t.map (fun v => v / 255)).foldl max (a / 255) = (t.foldl max a) / 255 := by
  induction t generalizing a with
  | nil => rfl
  | cons b t ih =>
    simp only [List.map_cons, List.foldl_cons]
    rw [max_div_div_right (by norm_num : (0:ℚ) ≤ 255) a b, ih]

theorem npMaxQ_map_div (l : List ℚ) :
    npMaxQ (l.map (fun v => v / 255)) = npMaxQ l / 255 := by
  cases l with
  | nil => simp [npMaxQ]
  | cons a t => simp only [List.map_cons, npMaxQ]; exact foldl_max_map_div t a

/-! ## C4: idempotence of `normalize_images` -/

/-- C4 counterexample: the claim "normalize_images is idempotent: for every
array X, normalize_images (normalize_images X) equals normalize_images X" is
false on the code.  For the array `[510.0]` the first application divides by
255 giving `[2.0]`, whose maximum still exceeds 1, so the second application
divides again. -/
theorem C4_counterexample :
    normalize_images (normalize_images [(510 : ℚ)]) ≠ normalize_images [(510 : ℚ)] := by
  have h1 : normalize_images [(510 : ℚ)] = [2] := by
    norm_num [normalize_images, npMaxQ]
  have h2 : normalize_images [(2 : ℚ)] = [2 / 255] := by
    norm_num [normalize_images, npMaxQ]
  rw [h1, h2]
  simp only [ne_eq, List.cons.injEq, and_true]
  norm_num

/-- C4 (amended): `normalize_images` is idempotent on every nonempty array
whose maximum value is at most 255 (one division then brings the maximum to
at most 1); in particular, data already within `[0, 1]` passes through
unchanged.  An empty array makes `np.max` raise, and a maximum above 255
breaks idempotence, as the counterexample shows. -/
theorem C4_amended (X : List ℚ) (hne : X ≠ []) (hb : ∀ v ∈ X, v ≤ 255) :
    normalize_images (normalize_images X) = normalize_images X ∧
    ((∀ v ∈ X, v ≤ 1) → normalize_images X = X) := by
  constructor
  · by_cases h : 1 < npMaxQ X
    · have h255 : npMaxQ X ≤ 255 := hb _ (npMaxQ_mem hne)
      have e1 : normalize_images X = X.map (fun v => v / 255) := by
        simp only [normalize_images, if_pos h]
      have hle : npMaxQ (X.map (fun v => v / 255)) ≤ 1 := by
        rw [npMaxQ_map_div]
        exact (div_le_one (by norm_num : (0:ℚ) < 255)).mpr h255
      rw [e1]
      simp only [normalize_images, if_neg (not_lt.mpr hle)]
    · have e1 : normalize_images X = X := by
        simp only [normalize_images, if_neg h]
      rw [e1]; exact e1
  · intro h1
    have hle : npMaxQ X ≤ 1 := h1 _ (npMaxQ_mem hne)
    simp only [normalize_images, if_neg (not_lt.mpr hle)]

/-- C4 witness: the amended theorem applied to the concrete array `[2.0]`. -/
theorem C4_witness :
    normalize_images (normalize_images [(2 : ℚ)]) = normalize_images [(2 : ℚ)] :=
  (C4_amended [(2 : ℚ)] (by simp) (by norm_num)).1

/-! ## C6: `get_model_info` on missing and valid artifacts -/

/-- C6 counterexample: `TFLiteConverter.get_model_info` does not check the
path; `tf.lite.Interpreter` on a path naming no file raises an unhandled
exception instead of returning `None`, refuting the claim as stated for the
converter variant cited by the claim. -/
theorem C6_counterexample :
    converter_get_model_info [] ("missing.tflite") =
      Except.error ("model file not found: missing.tflite") := by
  rfl

/-- C6 (amended): `ThaiIDInference.get_model_info` returns `None` without
raising whenever the artifact failed to load — in particular on a missing
model file — and returns the populated shape/dtype record on a valid
artifact (the file size appears in the converter variant's record);
`TFLiteConverter.get_model_info`, by contrast, raises an unhandled exception
on a missing file and only returns its record, file size included, on an
existing one. -/
theorem C6_amended (fs : FileSystem) (path : String) (cf : Option (List String)) :
    (fsLookup fs path = none →
      get_model_info (mkInference fs path cf) = none ∧
      ∃ e, converter_get_model_info fs path = Except.error e) ∧
    (∀ art, fsLookup fs path = some art →
      (∃ info, get_model_info (mkInference fs path cf) = some info ∧
        info.inputShape = art.inputShape ∧ info.inputDtype = art.inputDtype ∧
        info.outputShape = art.outputShape ∧ info.outputDtype = art.outputDtype) ∧
      (∃ cinfo, converter_get_model_info fs path = Except.ok cinfo ∧
        cinfo.fileSizeMb = (art.sizeBytes : ℚ) / (1024 * 1024) ∧
        cinfo.inputShape = art.inputShape ∧ cinfo.outputShape = art.outputShape)) := by
  constructor
  · intro h
    refine ⟨?_, ⟨"model file not found: " ++ path, ?_⟩⟩
    · simp [get_model_info, mkInference, h]
    · simp [converter_get_model_info, h]
  · intro art h
    constructor
    · refine ⟨{ modelPath := path
                inputShape := art.inputShape
                inputDtype := art.inputDtype
                outputShape := art.outputShape
                outputDtype := art.outputDtype
                numClasses := (load_classes cf).length
                classes := load_classes cf }, ?_, rfl, rfl, rfl, rfl⟩
      simp [get_model_info, mkInference, h]
    · refine ⟨{ fileSizeMb := (art.sizeBytes : ℚ) / (1024 * 1024)
                inputShape := art.inputShape
                inputDtype := art.inputDtype
                outputShape := art.outputShape
                outputDtype := art.outputDtype
                numTensors := art.numTensors }, ?_, rfl, rfl, rfl⟩
      simp [converter_get_model_info, h]

/-- C6 witness: the amended theorem applied to an empty filesystem (missing
file) and to a filesystem holding one valid artifact. -/
theorem C6_witness :
    (get_model_info (mkInference [] ("x.tflite") none) = none ∧
      ∃ e, converter_get_model_info [] ("x.tflite") = Except.error e) ∧
    ((∃ info,
        get_model_info
          (mkInference [(("m.tflite"), ⟨[1, 224, 224, 3], "float32", [1, 3], "float32", 12, 2048⟩)]
            ("m.tflite") none) = some info ∧
        info.inputShape = [1, 224, 224, 3] ∧ info.inputDtype = "float32" ∧
        info.outputShape = [1, 3] ∧ info.outputDtype = "float32") ∧
      (∃ cinfo,
        converter_get_model_info
          [(("m.tflite"), ⟨[1, 224, 224, 3], "float32", [1, 3], "float32", 12, 2048⟩)]
          ("m.tflite") = Except.ok cinfo ∧
        cinfo.fileSizeMb = ((2048 : ℚ)) / (1024 * 1024) ∧
        cinfo.inputShape = [1, 224, 224, 3] ∧ cinfo.outputShape = [1, 3])) :=
  ⟨(C6_amended [] ("x.tflite") none).1 (by rfl),
   (C6_amended [(("m.tflite"), ⟨[1, 224, 224, 3], "float32", [1, 3], "float32", 12, 2048⟩)]
      ("m.tflite") none).2 ⟨[1, 224, 224, 3], "float32", [1, 3], "float32", 12, 2048⟩ (by rfl)⟩

/-! ## C7: trainer operations before `create_model` -/

/-- C7: each of `train`, `train_extended`, `fine_tune` and
`fine_tune_extended`, invoked while no model has been created, raises a
`ValueError` and leaves the trainer state unchanged. -/
theorem C7_guard (st : TrainerState) (e1 e2 e3 e4 : ℕ) (h : st.model = none) :
    train st e1 = (st, Except.error ("Modelo nao foi criado. Chame create_model() primeiro.")) ∧
    train_extended st e2 =
      (st, Except.error ("Modelo nao foi criado. Chame create_model() primeiro.")) ∧
    fine_tune st e3 = (st, Except.error ("Modelo nao foi treinado ainda!")) ∧
    fine_tune_extended st e4 = (st, Except.error ("Modelo nao foi treinado ainda!")) := by
  refine ⟨?_, ?_, ?_, ?_⟩ <;>
    simp [train, train_extended, fine_tune, fine_tune_extended, h]

/-- C7 witness: the guard theorem applied to the freshly constructed trainer
state, which has no model. -/
theorem C7_witness :
    train ⟨"dataset/", none, none, none, none⟩ 50 =
      (⟨"dataset/", none, none, none, none⟩,
        Except.error ("Modelo nao foi criado. Chame create_model() primeiro.")) ∧
    train_extended ⟨"dataset/", none, none, none, none⟩ 100 =
      (⟨"dataset/", none, none, none, none⟩,
        Except.error ("Modelo nao foi criado. Chame create_model() primeiro.")) ∧
    fine_tune ⟨"dataset/", none, none, none, none⟩ 10 =
      (⟨"dataset/", none, none, none, none⟩,
        Except.error ("Modelo nao foi treinado ainda!")) ∧
    fine_tune_extended ⟨"dataset/", none, none, none, none⟩ 30 =
      (⟨"dataset/", none, none, none, none⟩,
        Except.error ("Modelo nao foi treinado ainda!")) :=
  C7_guard ⟨"dataset/", none, none, none, none⟩ 50 100 10 30 rfl

/-! ## C10: fallback class registry of the inference harness -/

/-- C10: constructing `ThaiIDInference` with a missing classes file does not
raise; `load_classes` falls back to the registry `classe_0 .. classe_2`
(`mkInference` is total, so no exception is possible in the model), and
`predict` resolves class names against that fallback; the dataset loader's
`_load_classes`, in contrast, raises `FileNotFoundError` on a missing file
and never returns. -/
theorem C10_fallback (fs : FileSystem) (path : String) (run : ℕ → List ℚ) :
    (mkInference fs path none).classes = ["classe_0", "classe_1", "classe_2"] ∧
    (∀ cs, dataLoaderLoadClasses none ≠ Except.ok cs) ∧
    (∀ img r, predict (mkInference fs path none) run img = Except.ok r →
      r.classId < 3 → r.className = "classe_" ++ toString r.classId) := by
  refine ⟨rfl, fun cs h => by simp [dataLoaderLoadClasses] at h, fun img r h hlt => ?_⟩
  unfold predict at h
  cases hit : (mkInference fs path none).interpreter with
  | none => rw [hit] at h; exact absurd h (by simp)
  | some it =>
    rw [hit] at h
    by_cases hr : img.isPath && !img.readable
    · rw [if_pos hr] at h; exact absurd h (by simp)
    · rw [if_neg hr] at h
      have hcl : (mkInference fs path none).classes = ["classe_0", "classe_1", "classe_2"] := rfl
      rw [hcl] at h
      injection h with h
      subst h
      simp only []
      interval_cases hc : npArgmaxQ (run img.pixels) <;> simp_all <;> decide

/-- C10 witness: the fallback theorem applied to an empty filesystem, plus
its class-name clause at a concrete successful prediction. -/
theorem C10_witness :
    (mkInference [] ("thai_id_model.tflite") none).classes =
      ["classe_0", "classe_1", "classe_2"] ∧
    dataLoaderLoadClasses none ≠ Except.ok ["card"] ∧
    (⟨0, "classe_0", 1, [1]⟩ : Prediction).className =
      "classe_" ++ toString (0 : ℕ) :=
  ⟨(C10_fallback [] ("thai_id_model.tflite") (fun _ => [1])).1,
   (C10_fallback [] ("thai_id_model.tflite") (fun _ => [1])).2.1 ["card"],
   (C10_fallback
      [(("thai_id_model.tflite"), ⟨[1, 224, 224, 3], "float32", [1, 3], "float32", 12, 2048⟩)]
      ("thai_id_model.tflite") (fun _ => [1])).2.2
      ⟨false, true, 0⟩ ⟨0, "classe_0", 1, [1]⟩ (by decide) (by decide)⟩

/-! ## C8: per-image isolation of `predict_batch` -/

theorem predictBatchLoop_length (st : InferenceState) (run : ℕ → List ℚ) :
    ∀ (imgs : List PredImage) (i : ℕ), (predictBatchLoop st run i imgs).length = imgs.length
  | [], _ => rfl
  | _ :: rest, i => by
    simp only [predictBatchLoop, List.length_cons]
    rw [predictBatchLoop_length st run rest (i + 1)]

theorem predictBatchLoop_get (st : InferenceState) (run : ℕ → List ℚ) :
    ∀ (imgs : List PredImage) (i0 i : ℕ) (img : PredImage), imgs[i]? = some img →
      (predictBatchLoop st run i0 imgs)[i]? = some (mkEntry (i0 + i) (predict st run img))
  | [], _, i, _, h => by simp at h
  | a :: rest, i0, 0, img, h => by
    simp only [List.getElem?_cons_zero, Option.some.injEq] at h
    subst h
    simp [predictBatchLoop]
  | a :: rest, i0, i + 1, img, h => by
    simp only [List.getElem?_cons_succ] at h
    have := predictBatchLoop_get st run rest (i0 + 1) i img h
    simpa [predictBatchLoop, Nat.add_assoc, Nat.add_comm 1 i] using this

/-- C8: `predict_batch` returns one entry per input image; the entry at
position `i` is exactly the packaged outcome of predicting image `i`
(so one image's failure yields an error record there and leaves every
other entry untouched), and every packaged entry carries `image_index`
equal to its position. -/
theorem C8_batch (st : InferenceState) (run : ℕ → List ℚ) (imgs : List PredImage) :
    (predict_batch st run imgs).length = imgs.length ∧
    (∀ i img, imgs[i]? = some img →
      (predict_batch st run imgs)[i]? = some (mkEntry i (predict st run img))) ∧
    (∀ i e, (mkEntry i e).imageIndex = i) := by
  refine ⟨predictBatchLoop_length st run imgs 0, fun i img h => ?_, fun i e => ?_⟩
  · simpa [predict_batch] using predictBatchLoop_get st run imgs 0 i img h
  · cases e <;> rfl

/-- C8 witness: a two-image batch against a loaded interpreter in which the
first image fails to decode (producing an error record at index 0) and the
second succeeds (producing a prediction record at index 1). -/
theorem C8_witness :
    (predict_batch ⟨"m.tflite", some ⟨[1, 224, 224, 3], "float32", [1, 3], "float32", 12, 2048⟩,
        ["card", "national_id", "religion"]⟩ (fun _ => [1])
      [⟨true, false, 0⟩, ⟨false, true, 1⟩]).length = 2 ∧
    (predict_batch ⟨"m.tflite", some ⟨[1, 224, 224, 3], "float32", [1, 3], "float32", 12, 2048⟩,
        ["card", "national_id", "religion"]⟩ (fun _ => [1])
      [⟨true, false, 0⟩, ⟨false, true, 1⟩])[0]? =
      some (mkEntry 0 (predict ⟨"m.tflite",
        some ⟨[1, 224, 224, 3], "float32", [1, 3], "float32", 12, 2048⟩,
        ["card", "national_id", "religion"]⟩ (fun _ => [1]) ⟨true, false, 0⟩)) ∧
    (predict_batch ⟨"m.tflite", some ⟨[1, 224, 224, 3], "float32", [1, 3], "float32", 12, 2048⟩,
        ["card", "national_id", "religion"]⟩ (fun _ => [1])
      [⟨true, false, 0⟩, ⟨false, true, 1⟩])[1]? =
      some (mkEntry 1 (predict ⟨"m.tflite",
        some ⟨[1, 224, 224, 3], "float32", [1, 3], "float32", 12, 2048⟩,
        ["card", "national_id", "religion"]⟩ (fun _ => [1]) ⟨false, true, 1⟩)) :=
  ⟨(C8_batch _ _ _).1,
   (C8_batch _ _ _).2.1 0 ⟨true, false, 0⟩ (by decide),
   (C8_batch _ _ _).2.1 1 ⟨false, true, 1⟩ (by decide)⟩

/-! ## C9: warm-up and timed iterations of `benchmark_inference_speed` -/

theorem foldl_succ_count : ∀ (l : List ℕ) (c : ℕ), l.foldl (fun c _ => c + 1) c = c + l.length
  | [], _ => rfl
  | _ :: rest, c => by
    simp only [List.foldl_cons, List.length_cons]
    rw [foldl_succ_count rest (c + 1)]
    omega

theorem bench_foldl (clock : ℕ → ℚ) :
    ∀ (l : List ℕ) (c : ℕ) (ts : List ℚ),
      l.foldl (fun (acc : ℕ × List ℚ) i =>
          (acc.1 + 1, acc.2 ++ [(clock (2 * i + 1) - clock (2 * i)) * 1000])) (c, ts) =
        (c + l.length, ts ++ l.map (fun i => (clock (2 * i + 1) - clock (2 * i)) * 1000))
  | [], c, ts => by simp
  | a :: rest, c, ts => by
    simp only [List.foldl_cons, List.length_cons, List.map_cons]
    rw [bench_foldl clock rest (c + 1) (ts ++ [(clock (2 * a + 1) - clock (2 * a)) * 1000])]
    refine Prod.ext (by omega) ?_
    simp

/-- C9: when a test image is available and the wall clock is monotone,
`benchmark_inference_speed` with `num_iterations = N` performs exactly 10
warm-up predictions (visible in the interpreter invocation count, and
contributing nothing to the timing array) followed by `N` timed ones, and
returns a statistics record whose `times` array has exactly `N` entries,
each a non-negative latency in milliseconds. -/
theorem C9_benchmark (clock : ℕ → ℚ) (hmono : ∀ i j, i ≤ j → clock i ≤ clock j)
    (files : List String) (f : String) (hf : f ∈ files) (hfi : isImageFile f = true)
    (N calls0 : ℕ) :
    ∃ stats finalCalls,
      benchmark_inference_speed clock (some files) N calls0 = some (stats, finalCalls) ∧
      finalCalls = calls0 + 10 + N ∧
      stats.times.length = N ∧
      (∀ t ∈ stats.times, 0 ≤ t) := by
  have hmem : f ∈ files.filter isImageFile := List.mem_filter.mpr ⟨hf, hfi⟩
  rcases hfil : files.filter isImageFile with _ | ⟨a, rest⟩
  · rw [hfil] at hmem; exact absurd hmem (List.not_mem_nil f)
  · have h10 : (List.range 10).foldl (fun c _ => c + 1) calls0 = calls0 + 10 := by
      rw [foldl_succ_count]; simp
    have heq : benchmark_inference_speed clock (some files) N calls0 =
        some ({ avgTimeMs := npMeanQ ((List.range N).map
                  (fun i => (clock (2 * i + 1) - clock (2 * i)) * 1000))
                minTimeMs := npMinQ ((List.range N).map
                  (fun i => (clock (2 * i + 1) - clock (2 * i)) * 1000))
                maxTimeMs := npMaxQ ((List.range N).map
                  (fun i => (clock (2 * i + 1) - clock (2 * i)) * 1000))
                varTimeMs := npVarQ ((List.range N).map
                  (fun i => (clock (2 * i + 1) - clock (2 * i)) * 1000))
                fps := 1000 / npMeanQ ((List.range N).map
                  (fun i => (clock (2 * i + 1) - clock (2 * i)) * 1000))
                times := (List.range N).map
                  (fun i => (clock (2 * i + 1) - clock (2 * i)) * 1000) },
              calls0 + 10 + N) := by
      simp only [benchmark_inference_speed, hfil, h10, bench_foldl, List.nil_append,
        List.length_range]
    refine ⟨_, _, heq, rfl, ?_, ?_⟩
    · simp
    · intro t ht
      simp only [List.mem_map, List.mem_range] at ht
      obtain ⟨i, _, rfl⟩ := ht
      have hcl : clock (2 * i) ≤ clock (2 * i + 1) := hmono _ _ (by omega)
      have h0 : 0 ≤ clock (2 * i + 1) - clock (2 * i) := by linarith
      positivity

/-- C9 witness: the benchmark theorem at the identity clock with 50
iterations, as in the spec scenario. -/
theorem C9_witness :
    ∃ stats finalCalls,
      benchmark_inference_speed (fun i => (i : ℚ)) (some ["a.jpg"]) 50 0 =
        some (stats, finalCalls) ∧
      finalCalls = 0 + 10 + 50 ∧
      stats.times.length = 50 ∧
      (∀ t ∈ stats.times, 0 ≤ t) :=
  C9_benchmark (fun i => (i : ℚ)) (fun i j h => by simpa using (Nat.cast_le (α := ℚ)).mpr h)
    ["a.jpg"] ("a.jpg") (by decide) (by decide) 50 0

/-! ## Permutation lemmas for the seeded shuffle -/

theorem perm_get_cons_eraseIdx {α : Type*} :
    ∀ (l : List α) (i : ℕ) (h : i < l.length), (l.get ⟨i, h⟩ :: l.eraseIdx i).Perm l
  | a :: t, 0, _ => by simp
  | a :: t, i + 1, h => by
    have h' : i < t.length := by simpa using Nat.lt_of_succ_lt_succ (by simpa using h)
    have h1 : (t.get ⟨i, h'⟩ :: a :: t.eraseIdx i).Perm (a :: t.get ⟨i, h'⟩ :: t.eraseIdx i) :=
      List.Perm.swap a (t.get ⟨i, h'⟩) _
    have h2 : (a :: t.get ⟨i, h'⟩ :: t.eraseIdx i).Perm (a :: t) :=
      (perm_get_cons_eraseIdx t i h').cons a
    exact h1.trans h2

theorem drawShuffleAux_perm {α : Type*} (pick : ℕ → ℕ) :
    ∀ (fuel s : ℕ) (l : List α), l.length ≤ fuel → (drawShuffleAux pick fuel s l).Perm l
  | 0, _, l, h => by
    have hl : l = [] := List.eq_nil_of_length_eq_zero (Nat.le_antisymm h (Nat.zero_le _))
    subst hl; simp [drawShuffleAux]
  | _ + 1, _, [], _ => by simp [drawShuffleAux]
  | fuel + 1, s, a :: t, h => by
    have hpos : 0 < (a :: t).length := by simp
    have hi : pick s % (a :: t).length < (a :: t).length := Nat.mod_lt _ hpos
    have hlen : ((a :: t).eraseIdx (pick s % (a :: t).length)).length ≤ fuel := by
      rw [List.length_eraseIdx, if_pos hi]
      simp only [List.length_cons] at h ⊢
      omega
    simp only [drawShuffleAux, List.getD_eq_getElem _ _ hi]
    exact ((drawShuffleAux_perm pick fuel (s + 1) _ hlen).cons _).trans
      (perm_get_cons_eraseIdx (a :: t) (pick s % (a :: t).length) hi)

theorem drawShuffle_perm {α : Type*} (pick : ℕ → ℕ) (s : ℕ) (l : List α) :
    (drawShuffle pick s l).Perm l :=
  drawShuffleAux_perm pick l.length s l le_rfl

theorem trainTestSplit_perm {α : Type*} (pick : ℕ → ℕ) (s : ℕ) (l : List α) (q : ℚ) :
    ((trainTestSplit pick s l q).1 ++ (trainTestSplit pick s l q).2).Perm l := by
  unfold trainTestSplit
  refine List.perm_append_comm.trans ?_
  rw [List.take_append_drop]
  exact drawShuffle_perm pick s l

/-! ## C2: the three splits partition the input -/

/-- C2: with `test_size = 0.2` and `val_size = 0.1`, the train, validation
and test sets returned by `create_data_splits` have lengths summing to the
input length, and their concatenation is a permutation of the input — every
input sample lands in exactly one split.  With `val_size = 0` the validation
split is `None` and train plus test alone partition the input.  This holds
for every realisation `pick` of the seeded shuffles. -/
theorem C2_splits (pick : ℕ → ℕ) (samples : List (ℕ × ℤ)) :
    ((create_data_splits pick samples (1/5) (1/10)).1.length
        + ((create_data_splits pick samples (1/5) (1/10)).2.1.getD []).length
        + (create_data_splits pick samples (1/5) (1/10)).2.2.length = samples.length
      ∧ ((create_data_splits pick samples (1/5) (1/10)).1
          ++ (create_data_splits pick samples (1/5) (1/10)).2.1.getD []
          ++ (create_data_splits pick samples (1/5) (1/10)).2.2).Perm samples)
    ∧ ((create_data_splits pick samples (1/5) 0).2.1 = none
      ∧ ((create_data_splits pick samples (1/5) 0).1
          ++ (create_data_splits pick samples (1/5) 0).2.2).Perm samples
      ∧ (create_data_splits pick samples (1/5) 0).1.length
          + (create_data_splits pick samples (1/5) 0).2.2.length = samples.length) := by
  have hval : (0 : ℚ) < 1/10 := by norm_num
  have hperm1 : ((trainTestSplit pick 0 samples (1/5)).1
      ++ (trainTestSplit pick 0 samples (1/5)).2).Perm samples :=
    trainTestSplit_perm pick 0 samples (1/5)
  constructor
  · have hC : create_data_splits pick samples (1/5) (1/10) =
        ((trainTestSplit pick samples.length (trainTestSplit pick 0 samples (1/5)).1
            ((1/10) / (1 - 1/5))).1,
         some (trainTestSplit pick samples.length (trainTestSplit pick 0 samples (1/5)).1
            ((1/10) / (1 - 1/5))).2,
         (trainTestSplit pick 0 samples (1/5)).2) := by
      simp only [create_data_splits, if_pos hval]
    have hperm2 : ((trainTestSplit pick samples.length (trainTestSplit pick 0 samples (1/5)).1
        ((1/10) / (1 - 1/5))).1
        ++ (trainTestSplit pick samples.length (trainTestSplit pick 0 samples (1/5)).1
        ((1/10) / (1 - 1/5))).2).Perm (trainTestSplit pick 0 samples (1/5)).1 :=
      trainTestSplit_perm pick samples.length _ _
    rw [hC]
    have hall : ((trainTestSplit pick samples.length (trainTestSplit pick 0 samples (1/5)).1
        ((1/10) / (1 - 1/5))).1
        ++ (trainTestSplit pick samples.length (trainTestSplit pick 0 samples (1/5)).1
        ((1/10) / (1 - 1/5))).2
        ++ (trainTestSplit pick 0 samples (1/5)).2).Perm samples :=
      ((hperm2.append_right _).trans hperm1)
    constructor
    · have := hall.length_eq
      simp only [List.length_append] at this
      simpa using this
    · simpa using hall
  · have hC : create_data_splits pick samples (1/5) 0 =
        ((trainTestSplit pick 0 samples (1/5)).1, none,
         (trainTestSplit pick 0 samples (1/5)).2) := by
      simp only [create_data_splits, if_neg (lt_irrefl (0 : ℚ))]
    rw [hC]
    refine ⟨rfl, hperm1, ?_⟩
    have := hperm1.length_eq
    simpa [List.length_append] using this

/-! ## C3: per-class counts after `balance_dataset` -/

theorem mem_npUnique {l : List ℤ} {a : ℤ} : a ∈ npUnique l ↔ a ∈ l := by
  rw [npUnique, (List.perm_insertionSort _ _).mem_iff, List.mem_dedup]

theorem npUnique_nodup (l : List ℤ) : (npUnique l).Nodup :=
  (List.perm_insertionSort _ _).nodup_iff.mpr (List.nodup_dedup l)

theorem npMinNat_le {l : List ℕ} {x : ℕ} (h : x ∈ l) : npMinNat l ≤ x := by
  cases l with
  | nil => exact absurd h (List.not_mem_nil x)
  | cons a t =>
    simp only [npMinNat]
    rcases List.mem_cons.mp h with rfl | hx
    · exact (foldl_min_le t x).1
    · exact (foldl_min_le t a).2 x hx

theorem le_npMaxNat {l : List ℕ} {x : ℕ} (h : x ∈ l) : x ≤ npMaxNat l := by
  cases l with
  | nil => exact absurd h (List.not_mem_nil x)
  | cons a t =>
    simp only [npMaxNat]
    rcases List.mem_cons.mp h with rfl | hx
    · exact (le_foldl_max t x).1
    · exact (le_foldl_max t a).2 x hx

theorem chooseNoRep_length {α : Type*} (pick : ℕ → ℕ) :
    ∀ (s k : ℕ) (l : List α), k ≤ l.length → (chooseNoRep pick s k l).length = k
  | _, 0, _, _ => rfl
  | _, k + 1, [], h => by simp at h
  | s, k + 1, a :: t, h => by
    have hi : pick s % (a :: t).length < (a :: t).length := Nat.mod_lt _ (by simp)
    have hlen : k ≤ ((a :: t).eraseIdx (pick s % (a :: t).length)).length := by
      rw [List.length_eraseIdx, if_pos hi]
      simp only [List.length_cons] at h ⊢
      omega
    simp only [chooseNoRep]
    rw [List.length_cons, chooseNoRep_length pick (s + 1) k _ hlen]

theorem chooseNoRep_subset {α : Type*} (pick : ℕ → ℕ) :
    ∀ (s k : ℕ) (l : List α) (x : α), x ∈ chooseNoRep pick s k l → x ∈ l
  | _, 0, _, x, h => absurd h (List.not_mem_nil x)
  | _, _ + 1, [], x, h => absurd h (List.not_mem_nil x)
  | s, k + 1, a :: t, x, h => by
    have hi : pick s % (a :: t).length < (a :: t).length := Nat.mod_lt _ (by simp)
    simp only [chooseNoRep] at h
    rcases List.mem_cons.mp h with rfl | hx
    · rw [List.getD_eq_getElem _ _ hi]; exact List.getElem_mem hi
    · exact List.eraseIdx_subset _ _ (chooseNoRep_subset pick (s + 1) k _ x hx)

theorem chooseRep_length {α : Type*} (pick : ℕ → ℕ) (s k : ℕ) (l : List α)
    (h : l ≠ []) : (chooseRep pick s k l).length = k := by
  cases l with
  | nil => exact absurd rfl h
  | cons a t => simp [chooseRep]

theorem chooseRep_subset {α : Type*} (pick : ℕ → ℕ) (s k : ℕ) (l : List α) (x : α)
    (h : x ∈ chooseRep pick s k l) : x ∈ l := by
  cases l with
  | nil => simp [chooseRep] at h
  | cons a t =>
    simp only [chooseRep, List.mem_map, List.mem_range] at h
    obtain ⟨j, _, rfl⟩ := h
    have hi : pick (s + j) % (a :: t).length < (a :: t).length := Nat.mod_lt _ (by simp)
    rw [List.getD_eq_getElem _ _ hi]
    exact List.getElem_mem hi

theorem mem_classSamples {α : Type*} {samples : List (α × ℤ)} {c : ℤ} {x : α × ℤ} :
    x ∈ classSamples samples c ↔ x ∈ samples ∧ x.2 = c := by
  simp [classSamples, List.mem_filter]

theorem length_classSamples {α : Type*} (samples : List (α × ℤ)) (c : ℤ) :
    (classSamples samples c).length = (labels samples).count c := by
  rw [labels, List.count_eq_countP, List.countP_map, List.countP_eq_length_filter]
  rfl

theorem labels_append {α : Type*} (l1 l2 : List (α × ℤ)) :
    labels (l1 ++ l2) = labels l1 ++ labels l2 := by
  simp [labels]

theorem count_labels_of_all {α : Type*} (l : List (α × ℤ)) (c : ℤ)
    (h : ∀ x ∈ l, x.2 = c) : (labels l).count c = l.length := by
  have hcl : List.count c (labels l) = (labels l).length :=
    List.count_eq_length.mpr (fun b hb => by
      rw [labels, List.mem_map] at hb
      obtain ⟨x, hx, rfl⟩ := hb
      exact (h x hx).symm)
  rw [hcl]
  simp [labels]

theorem count_labels_zero {α : Type*} (l : List (α × ℤ)) (c d : ℤ)
    (h : ∀ x ∈ l, x.2 = d) (hne : c ≠ d) : (labels l).count c = 0 := by
  rw [List.count_eq_zero, labels, List.mem_map]
  rintro ⟨x, hx, rfl⟩
  exact hne (h x hx)

theorem undersamplePart_count {α : Type*} (pick : ℕ → ℕ) (samples : List (α × ℤ)) (k : ℕ) :
    ∀ (s : ℕ) (cs : List ℤ), cs.Nodup →
      (∀ d ∈ cs, k ≤ (classSamples samples d).length) →
      ∀ c, (labels (undersamplePart pick samples k s cs)).count c = if c ∈ cs then k else 0
  | _, [], _, _, c => by simp [undersamplePart, labels]
  | s, d :: rest, hnd, hk, c => by
    obtain ⟨hd, hnd'⟩ := List.nodup_cons.mp hnd
    have hlen : (chooseNoRep pick s k (classSamples samples d)).length = k :=
      chooseNoRep_length pick s k _ (hk d (List.mem_cons_self d rest))
    have hall : ∀ x ∈ chooseNoRep pick s k (classSamples samples d), x.2 = d :=
      fun x hx => (mem_classSamples.mp (chooseNoRep_subset pick s k _ x hx)).2
    rw [undersamplePart, labels_append, List.count_append,
      undersamplePart_count pick samples k (s + k) rest hnd'
        (fun e he => hk e (List.mem_cons_of_mem _ he)) c]
    by_cases hc : c = d
    · subst hc
      rw [count_labels_of_all _ _ hall, hlen]
      simp [hd]
    · rw [count_labels_zero _ c d hall hc]
      simp [hc]

theorem oversamplePart_count {α : Type*} (pick : ℕ → ℕ) (samples : List (α × ℤ)) (k : ℕ) :
    ∀ (s : ℕ) (cs : List ℤ), cs.Nodup →
      (∀ d ∈ cs, classSamples samples d ≠ []) →
      ∀ c, (labels (oversamplePart pick samples k s cs)).count c = if c ∈ cs then k else 0
  | _, [], _, _, c => by simp [oversamplePart, labels]
  | s, d :: rest, hnd, hk, c => by
    obtain ⟨hd, hnd'⟩ := List.nodup_cons.mp hnd
    have hlen : (chooseRep pick s k (classSamples samples d)).length = k :=
      chooseRep_length pick s k _ (hk d (List.mem_cons_self d rest))
    have hall : ∀ x ∈ chooseRep pick s k (classSamples samples d), x.2 = d :=
      fun x hx => (mem_classSamples.mp (chooseRep_subset pick s k _ x hx)).2
    rw [oversamplePart, labels_append, List.count_append,
      oversamplePart_count pick samples k (s + k) rest hnd'
        (fun e he => hk e (List.mem_cons_of_mem _ he)) c]
    by_cases hc : c = d
    · subst hc
      rw [count_labels_of_all _ _ hall, hlen]
      simp [hd]
    · rw [count_labels_zero _ c d hall hc]
      simp [hc]

/-- C3: for every realisation of the RNG streams, `balance_dataset` with
strategy `undersample` gives every present class exactly
`min(original per-class counts)` samples, with strategy `oversample` exactly
`max(original per-class counts)` samples (repetition allowed), and with any
other strategy it passes the data through with all per-class counts
unchanged (only reshuffled unless the strategy is the literal `none`). -/
theorem C3_balance (pick pickPerm : ℕ → ℕ) (samples : List (ℕ × ℤ)) (strategy : String) :
    (∀ c ∈ npUnique (labels samples),
      (labels (balance_dataset pick pickPerm "undersample" samples)).count c =
        npMinNat ((npUnique (labels samples)).map (fun d => (labels samples).count d))) ∧
    (∀ c ∈ npUnique (labels samples),
      (labels (balance_dataset pick pickPerm "oversample" samples)).count c =
        npMaxNat ((npUnique (labels samples)).map (fun d => (labels samples).count d))) ∧
    (strategy ≠ "undersample" → strategy ≠ "oversample" →
      ∀ c, (labels (balance_dataset pick pickPerm strategy samples)).count c =
        (labels samples).count c) := by
  refine ⟨fun c hc => ?_, fun c hc => ?_, fun h1 h2 c => ?_⟩
  · have hbd : balance_dataset pick pickPerm "undersample" samples =
        drawShuffle pickPerm 0 (undersamplePart pick samples
          (npMinNat ((npUnique (labels samples)).map (fun d => (labels samples).count d)))
          0 (npUnique (labels samples))) := rfl
    have hksel : ∀ d ∈ npUnique (labels samples),
        npMinNat ((npUnique (labels samples)).map (fun e => (labels samples).count e)) ≤
          (classSamples samples d).length := by
      intro d hd
      rw [length_classSamples]
      exact npMinNat_le (List.mem_map_of_mem _ hd)
    have hperm := (drawShuffle_perm pickPerm 0 (undersamplePart pick samples
        (npMinNat ((npUnique (labels samples)).map (fun d => (labels samples).count d)))
        0 (npUnique (labels samples)))).map Prod.snd
    rw [hbd, labels, hperm.count_eq c, ← labels,
      undersamplePart_count pick samples _ 0 _ (npUnique_nodup _) hksel c, if_pos hc]
  · have hbd : balance_dataset pick pickPerm "oversample" samples =
        drawShuffle pickPerm 0 (oversamplePart pick samples
          (npMaxNat ((npUnique (labels samples)).map (fun d => (labels samples).count d)))
          0 (npUnique (labels samples))) := rfl
    have hne : ∀ d ∈ npUnique (labels samples), classSamples samples d ≠ [] := by
      intro d hd
      have : d ∈ labels samples := mem_npUnique.mp hd
      rw [labels, List.mem_map] at this
      obtain ⟨x, hx, hxd⟩ := this
      exact List.ne_nil_of_mem (mem_classSamples.mpr ⟨hx, hxd⟩)
    have hperm := (drawShuffle_perm pickPerm 0 (oversamplePart pick samples
        (npMaxNat ((npUnique (labels samples)).map (fun d => (labels samples).count d)))
        0 (npUnique (labels samples)))).map Prod.snd
    rw [hbd, labels, hperm.count_eq c, ← labels,
      oversamplePart_count pick samples _ 0 _ (npUnique_nodup _) hne c, if_pos hc]
  · have hbd : balance_dataset pick pickPerm strategy samples =
        if strategy ≠ "none" then drawShuffle pickPerm 0 samples else samples := by
      simp only [balance_dataset]
      rw [if_neg h1, if_neg h2]
    rw [hbd]
    by_cases hn : strategy = "none"
    · rw [if_neg (by simp [hn])]
    · rw [if_pos hn]
      have hperm := (drawShuffle_perm pickPerm 0 samples).map Prod.snd
      rw [labels, hperm.count_eq c, ← labels]

/-- C3 witness: the balance theorem at the dataset
`[(0, 0), (1, 0), (2, 1)]` (class 0 twice, class 1 once; min count 1, max
count 2), with the constant-zero RNG streams and the pass-through strategy
`keep`. -/
theorem C3_witness :
    (labels (balance_dataset (fun _ => 0) (fun _ => 0) "undersample"
        [((0 : ℕ), (0 : ℤ)), (1, 0), (2, 1)])).count 0 =
      npMinNat ((npUnique (labels [((0 : ℕ), (0 : ℤ)), (1, 0), (2, 1)])).map
        (fun d => (labels [((0 : ℕ), (0 : ℤ)), (1, 0), (2, 1)]).count d)) ∧
    (labels (balance_dataset (fun _ => 0) (fun _ => 0) "oversample"
        [((0 : ℕ), (0 : ℤ)), (1, 0), (2, 1)])).count 1 =
      npMaxNat ((npUnique (labels [((0 : ℕ), (0 : ℤ)), (1, 0), (2, 1)])).map
        (fun d => (labels [((0 : ℕ), (0 : ℤ)), (1, 0), (2, 1)]).count d)) ∧
    (labels (balance_dataset (fun _ => 0) (fun _ => 0) "keep"
        [((0 : ℕ), (0 : ℤ)), (1, 0), (2, 1)])).count 0 =
      (labels [((0 : ℕ), (0 : ℤ)), (1, 0), (2, 1)]).count 0 :=
  ⟨(C3_balance (fun _ => 0) (fun _ => 0) [((0 : ℕ), (0 : ℤ)), (1, 0), (2, 1)] "keep").1
      0 (mem_npUnique.mpr (by decide)),
   (C3_balance (fun _ => 0) (fun _ => 0) [((0 : ℕ), (0 : ℤ)), (1, 0), (2, 1)] "keep").2.1
      1 (mem_npUnique.mpr (by decide)),
   (C3_balance (fun _ => 0) (fun _ => 0) [((0 : ℕ), (0 : ℤ)), (1, 0), (2, 1)] "keep").2.2
      (by decide) (by decide) 0⟩

/-! ## C1 and C5: labelling and exclusion in `load_data_for_classification` -/

theorem le_foldr_max_nat : ∀ (l : List ℕ) (x : ℕ), x ∈ l → x ≤ l.foldr max 0
  | [], x, h => absurd h (List.not_mem_nil x)
  | a :: t, x, h => by
    simp only [List.foldr_cons]
    rcases List.mem_cons.mp h with rfl | hx
    · exact le_max_left _ _
    · exact le_trans (le_foldr_max_nat t x hx) (le_max_right _ _)

theorem foldr_max_mem_nat : ∀ (l : List ℕ), l.foldr max 0 ≠ 0 → l.foldr max 0 ∈ l
  | [], h => absurd rfl h
  | a :: t, h => by
    simp only [List.foldr_cons] at h ⊢
    rcases le_total (t.foldr max 0) a with hle | hle
    · rw [max_eq_left hle]; exact List.mem_cons_self a t
    · rw [max_eq_right hle] at h ⊢
      exact List.mem_cons_of_mem _ (foldr_max_mem_nat t h)

theorem npUnique_sorted (l : List ℤ) : List.Sorted (· ≤ ·) (npUnique l) :=
  List.sorted_insertionSort _ _

/-- Characterisation of the label `unique[np.argmax(counts)]`: on a nonempty
class list it exists, occurs in the list, has maximal multiplicity, and is
the least class among those of maximal multiplicity (because `np.unique`
sorts ascending and `np.argmax` returns the first maximum). -/
theorem mostFrequentClass_spec (cls : List ℤ) (hne : cls ≠ []) :
    ∃ c, mostFrequentClass cls = some c ∧ c ∈ cls ∧
      (∀ d, cls.count d ≤ cls.count c) ∧
      (∀ d ∈ cls, cls.count d = cls.count c → c ≤ d) := by
  set u := npUnique cls with hu
  set counts := u.map (fun d => cls.count d) with hcounts
  set m := counts.foldr max 0 with hm
  obtain ⟨a, ha⟩ := List.exists_mem_of_ne_nil cls hne
  have hau : a ∈ u := mem_npUnique.mpr ha
  have hca : cls.count a ≠ 0 := fun h0 => (List.count_eq_zero.mp h0) ha
  have hcamem : cls.count a ∈ counts := List.mem_map_of_mem _ hau
  have hm1 : m ≠ 0 := by
    have := le_foldr_max_nat counts _ hcamem
    omega
  have hmmem : m ∈ counts := foldr_max_mem_nat counts hm1
  have hidx : npArgmax counts < counts.length := by
    simp only [npArgmax]
    exact List.findIdx_lt_length_of_exists ⟨m, hmmem, by simp⟩
  have hlenc : counts.length = u.length := by rw [hcounts]; exact List.length_map _ _
  have hidxu : npArgmax counts < u.length := by omega
  have hpm : counts.get ⟨npArgmax counts, hidx⟩ = m := by
    have hw : counts.findIdx (fun x => decide (x = m)) < counts.length := by
      simpa [npArgmax] using hidx
    have := @List.findIdx_getElem ℕ (fun x => decide (x = m)) counts hw
    simpa [npArgmax] using of_decide_eq_true this
  have hcget : counts.get ⟨npArgmax counts, hidx⟩ =
      cls.count (u.get ⟨npArgmax counts, hidxu⟩) :=
    List.getElem_map _
  have hccm : cls.count (u.get ⟨npArgmax counts, hidxu⟩) = m := by rw [← hcget, hpm]
  refine ⟨u.get ⟨npArgmax counts, hidxu⟩, ?_, ?_, ?_, ?_⟩
  · simp only [mostFrequentClass]
    exact List.get?_eq_get hidxu
  · exact mem_npUnique.mp (List.getElem_mem hidxu)
  · intro d
    by_cases hd : d ∈ cls
    · have hdu : d ∈ u := mem_npUnique.mpr hd
      have : cls.count d ∈ counts := List.mem_map_of_mem _ hdu
      have := le_foldr_max_nat counts _ this
      omega
    · rw [List.count_eq_zero.mpr hd]
      exact Nat.zero_le _
  · intro d hd heq
    obtain ⟨j, hj, hjd⟩ := List.mem_iff_getElem.mp (show d ∈ u from mem_npUnique.mpr hd)
    have hjc : j < counts.length := by omega
    have hjcount : counts.get ⟨j, hjc⟩ = cls.count d := by
      have h1 : counts.get ⟨j, hjc⟩ = cls.count (u.get ⟨j, hj⟩) := List.getElem_map _
      have h2 : u.get ⟨j, hj⟩ = d := hjd
      rw [h1, h2]
    have hnotlt : ¬ j < npArgmax counts := by
      intro hlt
      have hfalse : (fun x => decide (x = m)) (counts.get ⟨j, hjc⟩) = false :=
        List.not_of_lt_findIdx (by simpa [npArgmax] using hlt)
      have : counts.get ⟨j, hjc⟩ ≠ m := by simpa using hfalse
      exact this (by rw [hjcount, heq, hccm])
    have hle : npArgmax counts ≤ j := Nat.le_of_not_lt hnotlt
    rcases Nat.eq_or_lt_of_le hle with heq2 | hlt2
    · subst heq2
      exact le_of_eq hjd
    · have hs : List.Sorted (· ≤ ·) u := npUnique_sorted cls
      have hrel := hs.rel_get_of_lt (a := ⟨npArgmax counts, hidxu⟩) (b := ⟨j, hj⟩)
        (Fin.mk_lt_mk.mpr hlt2)
      have h2 : u.get ⟨j, hj⟩ = d := hjd
      rw [h2] at hrel
      exact hrel

/-- An image that is unreadable or has no parsed boxes leaves the loader
accumulator untouched and never reaches the `class_counts` access: it is
skipped, not a failure. -/
theorem loadStep_skip (n : ℕ) (maxS : Option ℕ) (acc : LoadAcc) (img : ImageFile)
    (h : img.readable = false ∨ (parse_yolo_label img).2 = []) :
    loadStep n maxS acc img = Except.ok acc := by
  rcases h with h | h
  · simp [loadStep, h]
  · simp [loadStep, h]

theorem loadStep_none_ok (n : ℕ) (acc acc2 : LoadAcc) (img : ImageFile)
    (h : loadStep n none acc img = Except.ok acc2) :
    acc2.images = acc.images ++ (classifyOne img).elim [] (fun p => [p.1]) ∧
    acc2.labels = acc.labels ++ (classifyOne img).elim [] (fun p => [p.2]) := by
  by_cases hr : img.readable = true
  · by_cases hc : 0 < (parse_yolo_label img).2.length
    · rcases hm : mostFrequentClass (parse_yolo_label img).2 with _ | c
      · have hstep : loadStep n none acc img = Except.ok acc := by
          simp [loadStep, hr, hc, hm]
        rw [hstep] at h
        injection h with h
        subst h
        simp [classifyOne, hr, hc, hm]
      · by_cases hg : 0 ≤ c ∧ c < (n : ℤ)
        · have hstep : loadStep n none acc img = Except.ok
              { images := acc.images ++ [img.data]
                labels := acc.labels ++ [c]
                classCounts := fun d =>
                  if d = c then acc.classCounts d + 1 else acc.classCounts d } := by
            simp [loadStep, hr, hc, hm, hg]
          rw [hstep] at h
          injection h with h
          subst h
          simp [classifyOne, hr, hc, hm]
        · have hstep : loadStep n none acc img =
              Except.error ("KeyError: " ++ toString c) := by
            simp [loadStep, hr, hc, hm, hg]
          rw [hstep] at h
          exact Except.noConfusion h
    · have hnil : (parse_yolo_label img).2 = [] := by
        rcases hl : (parse_yolo_label img).2 with _ | ⟨x, t⟩
        · rfl
        · rw [hl] at hc; simp at hc
      rw [loadStep_skip n none acc img (Or.inr hnil)] at h
      injection h with h
      subst h
      simp [classifyOne, hr, hc]
  · have hb : img.readable = false := by
      rcases hbv : img.readable with _ | _
      · rfl
      · exact absurd hbv hr
    rw [loadStep_skip n none acc img (Or.inl hb)] at h
    injection h with h
    subst h
    simp [classifyOne, hb]

theorem loadLoop_none_ok (n : ℕ) :
    ∀ (imgs : List ImageFile) (acc acc2 : LoadAcc),
      loadLoop n none acc imgs = Except.ok acc2 →
      acc2.images = acc.images ++ (imgs.filterMap classifyOne).map Prod.fst ∧
      acc2.labels = acc.labels ++ (imgs.filterMap classifyOne).map Prod.snd
  | [], acc, acc2, h => by
    simp only [loadLoop, Except.ok.injEq] at h
    subst h
    simp
  | img :: rest, acc, acc2, h => by
    simp only [loadLoop] at h
    cases hstep : loadStep n none acc img with
    | error e =>
      simp only [hstep] at h
      exact Except.noConfusion h
    | ok accm =>
      simp only [hstep] at h
      obtain ⟨h1, h2⟩ := loadStep_none_ok n acc accm img hstep
      obtain ⟨ih1, ih2⟩ := loadLoop_none_ok n rest accm acc2 h
      rw [List.filterMap_cons]
      cases hm : classifyOne img with
      | none =>
        constructor
        · rw [ih1, h1]; simp [hm]
        · rw [ih2, h2]; simp [hm]
      | some p =>
        constructor
        · rw [ih1, h1]; simp [hm, List.append_assoc]
        · rw [ih2, h2]; simp [hm, List.append_assoc]

/-- A run of the loader (no per-class cap) that returns successfully returns
exactly the per-image contributions, in directory order. -/
theorem load_none_ok (n : ℕ) (imgs : List ImageFile) (imagesOut : List ℕ)
    (labelsOut : List ℤ)
    (h : load_data_for_classification n none imgs = Except.ok (imagesOut, labelsOut)) :
    imagesOut = (imgs.filterMap classifyOne).map Prod.fst ∧
    labelsOut = (imgs.filterMap classifyOne).map Prod.snd := by
  simp only [load_data_for_classification] at h
  cases hloop : loadLoop n none ⟨[], [], fun _ => 0⟩ imgs with
  | error e =>
    simp only [hloop] at h
    exact Except.noConfusion h
  | ok final =>
    simp only [hloop, Except.ok.injEq, Prod.mk.injEq] at h
    obtain ⟨hi, hl⟩ := h
    obtain ⟨h1, h2⟩ := loadLoop_none_ok n imgs ⟨[], [], fun _ => 0⟩ final hloop
    constructor
    · rw [← hi, h1]; simp
    · rw [← hl, h2]; simp

/-- C1: on every run of `load_data_for_classification` (with the default
`max_samples_per_class = None`) that returns — i.e. where no plurality class
id falls outside `range(num_classes)`, which would raise `KeyError` at the
`class_counts` access — every image whose annotation parses to a nonempty
class list is assigned the label of maximal multiplicity among its boxes,
and among tied maxima the lowest class id. -/
theorem C1_plurality (numClasses : ℕ) (imgs : List ImageFile) (img : ImageFile)
    (imagesOut : List ℕ) (labelsOut : List ℤ)
    (hmem : img ∈ imgs) (hr : img.readable = true)
    (hne : (parse_yolo_label img).2 ≠ [])
    (hok : load_data_for_classification numClasses none imgs =
      Except.ok (imagesOut, labelsOut)) :
    ∃ c, mostFrequentClass (parse_yolo_label img).2 = some c ∧
      (img.data, c) ∈ imagesOut.zip labelsOut ∧
      c ∈ (parse_yolo_label img).2 ∧
      (∀ d, (parse_yolo_label img).2.count d ≤ (parse_yolo_label img).2.count c) ∧
      (∀ d ∈ (parse_yolo_label img).2,
        (parse_yolo_label img).2.count d = (parse_yolo_label img).2.count c → c ≤ d) := by
  obtain ⟨c, hc, hmemc, hmax, htie⟩ := mostFrequentClass_spec _ hne
  refine ⟨c, hc, ?_, hmemc, hmax, htie⟩
  obtain ⟨h1, h2⟩ := load_none_ok numClasses imgs imagesOut labelsOut hok
  have hclass : classifyOne img = some (img.data, c) := by
    simp [classifyOne, hr, List.length_pos.mpr hne, hc]
  have hpairs : (img.data, c) ∈ imgs.filterMap classifyOne :=
    List.mem_filterMap.mpr ⟨img, hmem, hclass⟩
  rw [h1, h2]
  simpa [List.zip_map'] using hpairs

/-- C1 witness: a three-class registry (the spec scenario) and a single
image with boxes of classes `[0, 0, 2]`: the call succeeds with output
`([7], [0])`, and the assigned label satisfies the plurality and
lowest-tie-break properties. -/
theorem C1_witness :
    ∃ c, mostFrequentClass
        (parse_yolo_label ⟨7, true, true, [[0, 1, 2, 3, 4], [0, 5, 6, 7, 8],
          [2, 1, 2, 3, 4]]⟩).2 = some c ∧
      ((7 : ℕ), c) ∈ ([7].zip [(0 : ℤ)]) ∧
      c ∈ (parse_yolo_label ⟨7, true, true, [[0, 1, 2, 3, 4], [0, 5, 6, 7, 8],
          [2, 1, 2, 3, 4]]⟩).2 ∧
      (∀ d, (parse_yolo_label ⟨7, true, true, [[0, 1, 2, 3, 4], [0, 5, 6, 7, 8],
          [2, 1, 2, 3, 4]]⟩).2.count d ≤
        (parse_yolo_label ⟨7, true, true, [[0, 1, 2, 3, 4], [0, 5, 6, 7, 8],
          [2, 1, 2, 3, 4]]⟩).2.count c) ∧
      (∀ d ∈ (parse_yolo_label ⟨7, true, true, [[0, 1, 2, 3, 4], [0, 5, 6, 7, 8],
          [2, 1, 2, 3, 4]]⟩).2,
        (parse_yolo_label ⟨7, true, true, [[0, 1, 2, 3, 4], [0, 5, 6, 7, 8],
          [2, 1, 2, 3, 4]]⟩).2.count d =
          (parse_yolo_label ⟨7, true, true, [[0, 1, 2, 3, 4], [0, 5, 6, 7, 8],
            [2, 1, 2, 3, 4]]⟩).2.count c → c ≤ d) :=
  C1_plurality 3 [⟨7, true, true, [[0, 1, 2, 3, 4], [0, 5, 6, 7, 8], [2, 1, 2, 3, 4]]⟩]
    ⟨7, true, true, [[0, 1, 2, 3, 4], [0, 5, 6, 7, 8], [2, 1, 2, 3, 4]]⟩
    [7] [0] (by decide) (by decide) (by decide) (by decide)

theorem loadLoop_skip_middle (n : ℕ) (maxS : Option ℕ) (img : ImageFile)
    (post : List ImageFile)
    (h : img.readable = false ∨ (parse_yolo_label img).2 = []) :
    ∀ (pre : List ImageFile) (acc : LoadAcc),
      loadLoop n maxS acc (pre ++ img :: post) = loadLoop n maxS acc (pre ++ post)
  | [], acc => by
    simp only [List.nil_append, loadLoop, loadStep_skip n maxS acc img h]
  | p :: pre, acc => by
    simp only [List.cons_append, loadLoop]
    cases hstep : loadStep n maxS acc p with
    | error e => simp only [hstep]
    | ok acc2 =>
      simp only [hstep]
      exact loadLoop_skip_middle n maxS img post h pre acc2

/-- C5: an image whose annotation file is missing or parses to zero boxes,
or whose image file is unreadable, is excluded from the classification
dataset: deleting it from the directory listing leaves the result of
`load_data_for_classification` unchanged (for any registry size and any
per-class cap), and such an image itself never causes a failure — its step
returns the accumulator untouched, before any `class_counts` access. -/
theorem C5_excluded (numClasses : ℕ) (maxS : Option ℕ) (pre post : List ImageFile)
    (img : ImageFile)
    (h : img.readable = false ∨ (parse_yolo_label img).2 = []) :
    load_data_for_classification numClasses maxS (pre ++ img :: post) =
      load_data_for_classification numClasses maxS (pre ++ post) ∧
    (∀ acc, loadStep numClasses maxS acc img = Except.ok acc) := by
  constructor
  · simp only [load_data_for_classification]
    rw [loadLoop_skip_middle numClasses maxS img post h pre]
  · exact fun acc => loadStep_skip numClasses maxS acc img h

/-- C5 witness: deleting an unreadable image and (in a second application)
an image with an empty annotation file leaves the loader result unchanged,
and the unreadable image's step is a skip, not an error. -/
theorem C5_witness :
    load_data_for_classification 3 none
        [⟨7, true, true, [[0, 1, 2, 3, 4]]⟩, ⟨8, false, true, [[1, 1, 2, 3, 4]]⟩] =
      load_data_for_classification 3 none [⟨7, true, true, [[0, 1, 2, 3, 4]]⟩] ∧
    loadStep 3 none ⟨[], [], fun _ => 0⟩ ⟨8, false, true, [[1, 1, 2, 3, 4]]⟩ =
      Except.ok ⟨[], [], fun _ => 0⟩ ∧
    load_data_for_classification 3 none
        [⟨7, true, true, [[0, 1, 2, 3, 4]]⟩, ⟨9, true, false, [[1, 1, 2, 3]]⟩] =
      load_data_for_classification 3 none [⟨7, true, true, [[0, 1, 2, 3, 4]]⟩] :=
  ⟨(C5_excluded 3 none [⟨7, true, true, [[0, 1, 2, 3, 4]]⟩] []
      ⟨8, false, true, [[1, 1, 2, 3, 4]]⟩ (by decide)).1,
   (C5_excluded 3 none [⟨7, true, true, [[0, 1, 2, 3, 4]]⟩] []
      ⟨8, false, true, [[1, 1, 2, 3, 4]]⟩ (by decide)).2 ⟨[], [], fun _ => 0⟩,
   (C5_excluded 3 none [⟨7, true, true, [[0, 1, 2, 3, 4]]⟩] []
      ⟨9, true, false, [[1, 1, 2, 3]]⟩ (by decide)).1⟩

end ThaiID
